import Mathlib

/-!
Shallow embedding of the StudentRoutineApp main component.

The component holds view state (selectedGroup, selectedDay, isDarkMode,
isLoading), reads/writes two keys of an asynchronous key-value store, and
derives a render model from a static schedule dataset via substring group
filtering, day filtering, grouping by day and a stable per-day sort on the
start-time component of the time string.

Modelling conventions:
* JS strings are Lean `String`; character-level operations (substring search,
  split on the separator, lexicographic comparison) are defined on `List Char`
  so they compute in the kernel.  `localeCompare` on the zero-padded ASCII
  time strings agrees with lexicographic code-unit comparison, which is what
  the model uses.
* `Array.prototype.sort` is stable per the ECMAScript specification; the model
  uses a stable insertion sort with the same comparator semantics (an element
  is placed after every element whose key is strictly smaller).
* A failing store operation throws before mutating the store, so a failed
  write/delete leaves the store unchanged; the `catch` branches of the source
  only log (and, for group saves, alert), mutating no state.
* The dictionary built by `groupedByDay` yields `undefined` for absent days;
  every consumer treats that the same as an empty bucket, so the model returns
  `[]`.  `Object.keys` insertion order is modelled by `objKeys`.
-/

namespace StudentRoutine

/-- One record of the bundled schedule dataset (`ClassSchedule` in types.d.ts);
the two field names containing a space are camel-cased. -/
structure ClassSchedule where
  Day : String
  Time : String
  ClassType : String
  ModuleCode : String
  ModuleTitle : String
  Lecturer : String
  Group : String
  Room : String
deriving DecidableEq

/-- `const GROUPS = ['L4CG1', 'L4CG2', 'L4CG3', 'L4CG4']`. -/
def GROUPS : List String := ["L4CG1", "L4CG2", "L4CG3", "L4CG4"]

/-- `const DAYS = ['SUN', 'MON', 'TUE', 'WED', 'THU', 'FRI']` (no SAT). -/
def DAYS : List String := ["SUN", "MON", "TUE", "WED", "THU", "FRI"]

/-- The `dayMap` literal used to turn `Date.getDay()` into an abbreviation. -/
def dayMap : List String := ["SUN", "MON", "TUE", "WED", "THU", "FRI", "SAT"]

/-- `needle` begins the list `hay` (character-level). -/
def leadsWith : List Char → List Char → Bool
  | [], _ => true
  | _ :: _, [] => false
  | a :: as, b :: bs => a == b && leadsWith as bs

/-- `needle` occurs contiguously somewhere in the second list. -/
def occursIn (needle : List Char) : List Char → Bool
  | [] => needle.isEmpty
  | c :: cs => leadsWith needle (c :: cs) || occursIn needle cs

/-- JS `hay.includes(g)`: substring containment. -/
def strIncludes (hay g : String) : Bool := occursIn g.toList hay.toList

/-- The separator `' - '` of the time strings. -/
def timeSep : List Char := [' ', '-', ' ']

/-- Characters before the first occurrence of `timeSep`
(JS `s.split(' - ')[0]` as a character list). -/
def takeUntilSep : List Char → List Char
  | [] => []
  | c :: cs => if leadsWith timeSep (c :: cs) then [] else c :: takeUntilSep cs

/-- The start-time component of a session's time string, the sort key of the
per-day sort (`a.Time.split(' - ')[0]`). -/
def startKey (c : ClassSchedule) : List Char := takeUntilSep c.Time.toList

/-- The `filteredSchedule` memo: empty when no group is selected (JS falsiness
also rejects the empty string), else the dataset filtered by substring group
match, then by day unless `selectedDay` is `'ALL'`. -/
def filteredSchedule (data : List ClassSchedule) (selectedGroup : Option String)
    (selectedDay : String) : List ClassSchedule :=
  match selectedGroup with
  | none => []
  | some g =>
    if g.toList.isEmpty then []
    else
      let filtered := data.filter (fun item => strIncludes item.Group g)
      if selectedDay != "ALL" then
        filtered.filter (fun item => item.Day == selectedDay)
      else
        filtered

/-- Stable insertion of one session into a time-sorted bucket: the element is
placed after every element with a strictly smaller start key, matching the
stable `Array.prototype.sort` with comparator `timeA.localeCompare(timeB)`. -/
def insertByStart (x : ClassSchedule) : List ClassSchedule → List ClassSchedule
  | [] => [x]
  | y :: ys => if startKey y < startKey x then y :: insertByStart x ys else x :: y :: ys

/-- Stable sort of a day bucket by start time. -/
def sortByStart : List ClassSchedule → List ClassSchedule
  | [] => []
  | x :: xs => insertByStart x (sortByStart xs)

/-- The `groupedByDay` memo as a function from a day string to its bucket:
the bucket collects the filtered schedule's sessions of that day in dataset
order (single-pass append) and is then sorted by start time. -/
def groupedByDay (data : List ClassSchedule) (selectedGroup : Option String)
    (selectedDay : String) (d : String) : List ClassSchedule :=
  sortByStart ((filteredSchedule data selectedGroup selectedDay).filter
    (fun item => item.Day == d))

/-- `Object.keys` of the dictionary built by `groupedByDay`: the distinct day
strings of the list in first-occurrence (insertion) order. -/
def objKeys : List ClassSchedule → List String
  | [] => []
  | c :: cs => c.Day :: (objKeys cs).filter (fun d => d != c.Day)

/-- The day sections produced by `renderSchedule`: for `'ALL'` it maps over
`DAYS`, skipping empty buckets (the source returns `null` for them); for a
specific day it renders that single section (possibly with the empty-state
message). -/
def renderSchedule (data : List ClassSchedule) (selectedGroup : Option String)
    (selectedDay : String) : List (String × List ClassSchedule) :=
  if selectedDay == "ALL" then
    DAYS.filterMap (fun day =>
      let dayClasses := groupedByDay data selectedGroup selectedDay day
      if dayClasses.isEmpty then none else some (day, dayClasses))
  else
    [(selectedDay, groupedByDay data selectedGroup selectedDay selectedDay)]

/-- The two persisted keys of the secure store
(`selected_group`, `app_theme`); `none` is an absent key. -/
structure Store where
  selected_group : Option String
  app_theme : Option String
deriving DecidableEq

/-- The component's persistent-preference-related view state. -/
structure AppState where
  selectedGroup : Option String
  isDarkMode : Bool
  isLoading : Bool
deriving DecidableEq

/-- The `useState` initial values: no group, light theme, loading. -/
def initialState : AppState :=
  { selectedGroup := none, isDarkMode := false, isLoading := true }

/-- `loadSavedData`: on a successful read pair, adopt the stored group only if
it is truthy and a member of `GROUPS`, and set dark mode only if the stored
theme is literally `'dark'`; on a failed read change nothing; in all cases
clear `isLoading` (the `finally` block). -/
def loadSavedData (readOk : Bool) (st : Store) (s : AppState) : AppState :=
  if readOk then
    let s1 := match st.selected_group with
      | some g =>
        if !g.toList.isEmpty && GROUPS.contains g then
          { s with selectedGroup := some g }
        else s
      | none => s
    let s2 := if st.app_theme == some "dark" then { s1 with isDarkMode := true } else s1
    { s2 with isLoading := false }
  else
    { s with isLoading := false }

/-- `saveGroup`: write the group to the store, then set the in-memory group;
a failing write throws before either happens, and the `catch` only alerts. -/
def saveGroup (writeOk : Bool) (g : String) (st : Store) (s : AppState) :
    Store × AppState :=
  if writeOk then
    ({ st with selected_group := some g }, { s with selectedGroup := some g })
  else
    (st, s)

/-- `toggleTheme`: flip the in-memory theme first (optimistic), then persist;
a failing write leaves the flip in place (the `catch` only logs). -/
def toggleTheme (writeOk : Bool) (st : Store) (s : AppState) : Store × AppState :=
  let newTheme := !s.isDarkMode
  let s1 := { s with isDarkMode := newTheme }
  if writeOk then
    ({ st with app_theme := some (if newTheme then "dark" else "light") }, s1)
  else
    (st, s1)

/-- The confirmed branch of `changeGroup` (the `Yes` handler): delete the
stored group, then clear the in-memory group; a failing delete throws before
the clear, and the `catch` only logs, so nothing changes. -/
def changeGroupConfirmed (deleteOk : Bool) (st : Store) (s : AppState) :
    Store × AppState :=
  if deleteOk then
    ({ st with selected_group := none }, { s with selectedGroup := none })
  else
    (st, s)

/-- The `useState` initializer of `selectedDay`: today's abbreviation via
`dayMap[getDay()]`, kept only if it is in `DAYS`, else `'ALL'`. -/
def initSelectedDay (dayIndex : Fin 7) : String :=
  let currentDay := dayMap.getD dayIndex.val ""
  if DAYS.contains currentDay then currentDay else "ALL"

/-- The day choices offered by `renderDayPicker`: one `ALL` button plus one
button per element of `DAYS`. -/
def dayPickerOptions : List String := "ALL" :: DAYS

/-- The reachable values of `selectedDay`: its initializer for some weekday
index, or the target of a day-picker press from a reachable state. -/
inductive DayReachable : String → Prop where
  | init (i : Fin 7) : DayReachable (initSelectedDay i)
  | step (prev d : String) : DayReachable prev → d ∈ dayPickerOptions → DayReachable d

/-- Every group identifier is truthy (nonempty) and found by
`GROUPS.contains`. -/
theorem mem_GROUPS_props (g : String) (hg : g ∈ GROUPS) :
    g.toList.isEmpty = false ∧ GROUPS.contains g = true := by
  fin_cases hg <;> exact ⟨rfl, rfl⟩

/-- C1: for a valid group identifier g, `filteredSchedule` with
`selectedDay = 'ALL'` is exactly the dataset filtered to the sessions whose
`Group` tag contains g as a substring, hence a subsequence of the dataset
(original relative order preserved, nothing else included). -/
theorem filteredSchedule_group_exact (data : List ClassSchedule) (g : String)
    (hg : g ∈ GROUPS) :
    filteredSchedule data (some g) "ALL"
        = data.filter (fun item => strIncludes item.Group g)
    ∧ (filteredSchedule data (some g) "ALL").Sublist data := by
  obtain ⟨hne, -⟩ := mem_GROUPS_props g hg
  have hne2 : ¬ (g.toList.isEmpty = true) := by rw [hne]; decide
  have hall : ¬ ((("ALL" : String) != "ALL") = true) := by decide
  constructor
  · simp only [filteredSchedule, if_neg hne2, if_neg hall]
  · simp only [filteredSchedule, if_neg hne2, if_neg hall]
    exact List.filter_sublist data

/-- Witness for C1 on a concrete two-session dataset. -/
theorem filteredSchedule_group_exact_witness :
    "L4CG1" ∈ GROUPS
    ∧ (filteredSchedule
          [{ Day := "MON", Time := "10:00 - 11:00", ClassType := "Lecture",
             ModuleCode := "M1", ModuleTitle := "T1", Lecturer := "A",
             Group := "L4CG1,L4CG2", Room := "R1" },
           { Day := "TUE", Time := "09:00 - 10:00", ClassType := "Tutorial",
             ModuleCode := "M2", ModuleTitle := "T2", Lecturer := "B",
             Group := "L4CG3", Room := "R2" }] (some "L4CG1") "ALL"
        = List.filter (fun item => strIncludes item.Group "L4CG1")
          [{ Day := "MON", Time := "10:00 - 11:00", ClassType := "Lecture",
             ModuleCode := "M1", ModuleTitle := "T1", Lecturer := "A",
             Group := "L4CG1,L4CG2", Room := "R1" },
           { Day := "TUE", Time := "09:00 - 10:00", ClassType := "Tutorial",
             ModuleCode := "M2", ModuleTitle := "T2", Lecturer := "B",
             Group := "L4CG3", Room := "R2" }]
      ∧ (filteredSchedule
          [{ Day := "MON", Time := "10:00 - 11:00", ClassType := "Lecture",
             ModuleCode := "M1", ModuleTitle := "T1", Lecturer := "A",
             Group := "L4CG1,L4CG2", Room := "R1" },
           { Day := "TUE", Time := "09:00 - 10:00", ClassType := "Tutorial",
             ModuleCode := "M2", ModuleTitle := "T2", Lecturer := "B",
             Group := "L4CG3", Room := "R2" }] (some "L4CG1") "ALL").Sublist
          [{ Day := "MON", Time := "10:00 - 11:00", ClassType := "Lecture",
             ModuleCode := "M1", ModuleTitle := "T1", Lecturer := "A",
             Group := "L4CG1,L4CG2", Room := "R1" },
           { Day := "TUE", Time := "09:00 - 10:00", ClassType := "Tutorial",
             ModuleCode := "M2", ModuleTitle := "T2", Lecturer := "B",
             Group := "L4CG3", Room := "R2" }]) :=
  ⟨by decide, filteredSchedule_group_exact _ "L4CG1" (by decide)⟩

/-- C5 counterexample: a confirmed group change whose deletion fails leaves
the in-memory selectedGroup at its previous value, not cleared to None. -/
theorem changeGroup_deleteFail_not_cleared :
    (changeGroupConfirmed false
        { selected_group := some "L4CG1", app_theme := none }
        { selectedGroup := some "L4CG1", isDarkMode := false,
          isLoading := false }).2.selectedGroup ≠ none := by
  decide

/-- C5 (amended): when the confirmed group change's store deletion fails, both
the in-memory state and the store are left unchanged (the clear happens only
after a successful delete), so they do not diverge. -/
theorem changeGroup_deleteFail_unchanged (st : Store) (s : AppState) :
    (changeGroupConfirmed false st s).2 = s
    ∧ (changeGroupConfirmed false st s).1 = st :=
  ⟨rfl, rfl⟩

/-- C6: a failed group save leaves both the in-memory state and the store
unchanged — the in-memory update happens only after the write succeeds. -/
theorem saveGroup_writeFail_unchanged (g : String) (st : Store) (s : AppState) :
    (saveGroup false g st s).2 = s ∧ (saveGroup false g st s).1 = st :=
  ⟨rfl, rfl⟩

/-- C8: toggling the theme twice with both writes succeeding restores the
original in-memory theme, and the persisted value matches the final
in-memory theme. -/
theorem toggleTheme_twice_roundTrip (st : Store) (s : AppState) :
    (toggleTheme true (toggleTheme true st s).1 (toggleTheme true st s).2).2.isDarkMode
        = s.isDarkMode
    ∧ (toggleTheme true (toggleTheme true st s).1 (toggleTheme true st s).2).1.app_theme
        = some (if (toggleTheme true (toggleTheme true st s).1
              (toggleTheme true st s).2).2.isDarkMode then "dark" else "light") := by
  obtain ⟨sg, dk, ld⟩ := s
  cases dk <;> exact ⟨rfl, rfl⟩

/-- The sorting relation of the per-day sort: comparison of start keys. -/
def leKey (a b : ClassSchedule) : Prop := startKey a ≤ startKey b

theorem insertByStart_perm (x : ClassSchedule) (l : List ClassSchedule) :
    (insertByStart x l).Perm (x :: l) := by
  induction l with
  | nil => exact List.Perm.refl _
  | cons y ys ih =>
    by_cases h : startKey y < startKey x
    · simp only [insertByStart, if_pos h]
      exact (ih.cons y).trans (List.Perm.swap x y ys)
    · simp only [insertByStart, if_neg h]
      exact List.Perm.refl _

theorem sortByStart_perm (l : List ClassSchedule) : (sortByStart l).Perm l := by
  induction l with
  | nil => exact List.Perm.refl _
  | cons x xs ih => exact (insertByStart_perm x (sortByStart xs)).trans (ih.cons x)

theorem insertByStart_pairwise (x : ClassSchedule) (l : List ClassSchedule)
    (h : l.Pairwise leKey) : (insertByStart x l).Pairwise leKey := by
  induction l with
  | nil => exact List.pairwise_singleton _ _
  | cons y ys ih =>
    rw [List.pairwise_cons] at h
    obtain ⟨hy, hys⟩ := h
    by_cases hlt : startKey y < startKey x
    · simp only [insertByStart, if_pos hlt]
      rw [List.pairwise_cons]
      refine ⟨?_, ih hys⟩
      intro z hz
      rcases List.mem_cons.1 (((insertByStart_perm x ys).mem_iff).1 hz) with rfl | hzy
      · exact le_of_lt hlt
      · exact hy z hzy
    · simp only [insertByStart, if_neg hlt]
      have hxy : leKey x y := le_of_not_lt hlt
      rw [List.pairwise_cons]
      refine ⟨?_, by rw [List.pairwise_cons]; exact ⟨hy, hys⟩⟩
      intro z hz
      rcases List.mem_cons.1 hz with rfl | hzy
      · exact hxy
      · exact le_trans hxy (hy z hzy)

theorem sortByStart_pairwise (l : List ClassSchedule) :
    (sortByStart l).Pairwise leKey := by
  induction l with
  | nil => exact List.Pairwise.nil
  | cons x xs ih => exact insertByStart_pairwise x _ ih

theorem insertByStart_filter_ne (x : ClassSchedule) (l : List ClassSchedule)
    (k : List Char) (hx : (startKey x == k) = false) :
    (insertByStart x l).filter (fun c => startKey c == k)
      = l.filter (fun c => startKey c == k) := by
  induction l with
  | nil => simp [insertByStart, hx]
  | cons y ys ih =>
    by_cases hlt : startKey y < startKey x
    · simp only [insertByStart, if_pos hlt, List.filter_cons, ih]
    · simp only [insertByStart, if_neg hlt, List.filter_cons, hx,
        Bool.false_eq_true, if_false]

theorem insertByStart_filter_eq (x : ClassSchedule) (l : List ClassSchedule)
    (k : List Char) (hx : (startKey x == k) = true) :
    (insertByStart x l).filter (fun c => startKey c == k)
      = x :: l.filter (fun c => startKey c == k) := by
  have hxk : startKey x = k := beq_iff_eq.1 hx
  induction l with
  | nil => simp [insertByStart, hx]
  | cons y ys ih =>
    by_cases hlt : startKey y < startKey x
    · have hy : (startKey y == k) = false := by
        rw [beq_eq_false_iff_ne]
        intro hyk
        rw [hxk, hyk] at hlt
        exact lt_irrefl k hlt
      simp only [insertByStart, if_pos hlt, List.filter_cons, hy,
        Bool.false_eq_true, if_false, ih]
    · simp only [insertByStart, if_neg hlt, List.filter_cons, hx, if_true]

theorem sortByStart_filter (l : List ClassSchedule) (k : List Char) :
    (sortByStart l).filter (fun c => startKey c == k)
      = l.filter (fun c => startKey c == k) := by
  induction l with
  | nil => rfl
  | cons x xs ih =>
    by_cases hx : (startKey x == k) = true
    · rw [show sortByStart (x :: xs) = insertByStart x (sortByStart xs) from rfl,
        insertByStart_filter_eq x _ k hx, ih]
      simp [List.filter_cons, hx]
    · have hx2 : (startKey x == k) = false := by
        cases hb : (startKey x == k) with
        | false => rfl
        | true => exact absurd hb hx
      rw [show sortByStart (x :: xs) = insertByStart x (sortByStart xs) from rfl,
        insertByStart_filter_ne x _ k hx2, ih]
      simp [List.filter_cons, hx2]

/-- C2: each per-day bucket of the render model is non-decreasing in the
start-time key, and for every start-time key the bucket's sessions with that
key appear exactly as in the filtered schedule (dataset order): the sort is
stable. -/
theorem groupedByDay_sorted_stable (data : List ClassSchedule)
    (selectedGroup : Option String) (selectedDay d : String) :
    (groupedByDay data selectedGroup selectedDay d).Pairwise leKey
    ∧ ∀ k : List Char,
        (groupedByDay data selectedGroup selectedDay d).filter
            (fun c => startKey c == k)
          = (filteredSchedule data selectedGroup selectedDay).filter
              (fun c => c.Day == d && startKey c == k) := by
  refine ⟨sortByStart_pairwise _, fun k => ?_⟩
  rw [groupedByDay, sortByStart_filter, List.filter_filter]
  exact List.filter_congr (fun c _ => Bool.and_comm _ _)

theorem renderSections_fst (ks : List String) (f : String → List ClassSchedule) :
    ((ks.filterMap (fun day =>
        if (f day).isEmpty then none else some (day, f day))).map Prod.fst)
      = ks.filter (fun d => !(f d).isEmpty) := by
  induction ks with
  | nil => rfl
  | cons d ks ih =>
    by_cases h : f d = []
    · simpa [List.filterMap_cons, List.filter_cons, h] using ih
    · simpa [List.filterMap_cons, List.filter_cons, h] using ih

/-- C3: with `selectedDay = 'ALL'` the rendered day sections follow the fixed
order of `DAYS` (SUN..FRI restricted to nonempty buckets), and SAT is never
iterated, whatever the grouped data holds. -/
theorem renderSchedule_all_day_order (data : List ClassSchedule)
    (selectedGroup : Option String) :
    ((renderSchedule data selectedGroup "ALL").map Prod.fst)
        = DAYS.filter (fun d => !(groupedByDay data selectedGroup "ALL" d).isEmpty)
    ∧ "SAT" ∉ ((renderSchedule data selectedGroup "ALL").map Prod.fst) := by
  have h1 : ((renderSchedule data selectedGroup "ALL").map Prod.fst)
      = DAYS.filter (fun d => !(groupedByDay data selectedGroup "ALL" d).isEmpty) := by
    rw [show renderSchedule data selectedGroup "ALL"
        = DAYS.filterMap (fun day =>
            if (groupedByDay data selectedGroup "ALL" day).isEmpty then none
            else some (day, groupedByDay data selectedGroup "ALL" day)) from rfl]
    exact renderSections_fst DAYS _
  refine ⟨h1, ?_⟩
  rw [h1]
  intro hmem
  exact absurd (List.mem_of_mem_filter hmem) (by decide)

theorem flatMap_perm_congr {α β : Type} (ks : List α) (f g : α → List β)
    (h : ∀ a ∈ ks, (f a).Perm (g a)) :
    (ks.flatMap f).Perm (ks.flatMap g) := by
  induction ks with
  | nil => exact List.Perm.refl _
  | cons a ks ih =>
    simp only [List.flatMap_cons]
    exact (h a (List.mem_cons_self a ks)).append
      (ih (fun b hb => h b (List.mem_cons_of_mem a hb)))

theorem flatMap_congr_mem {α β : Type} (ks : List α) (f g : α → List β)
    (h : ∀ a ∈ ks, f a = g a) : ks.flatMap f = ks.flatMap g := by
  induction ks with
  | nil => rfl
  | cons a ks ih =>
    simp only [List.flatMap_cons]
    rw [h a (List.mem_cons_self a ks),
      ih (fun b hb => h b (List.mem_cons_of_mem a hb))]

theorem filter_day_flatMap_perm (ks : List String) :
    ∀ l : List ClassSchedule, ks.Nodup → (∀ c ∈ l, c.Day ∈ ks) →
      (ks.flatMap (fun d => l.filter (fun c => c.Day == d))).Perm l := by
  induction ks with
  | nil =>
    intro l _ hcov
    cases l with
    | nil => exact List.Perm.refl _
    | cons c cs => exact absurd (hcov c (List.mem_cons_self c cs)) (List.not_mem_nil _)
  | cons d ks ih =>
    intro l hnd hcov
    rw [List.nodup_cons] at hnd
    obtain ⟨hdks, hnd2⟩ := hnd
    have hbuckets : ∀ d2 ∈ ks,
        l.filter (fun c => c.Day == d2)
          = (l.filter (fun c => !(c.Day == d))).filter (fun c => c.Day == d2) := by
      intro d2 hd2
      rw [List.filter_filter]
      refine List.filter_congr ?_
      intro c _
      cases hcd : (c.Day == d2) with
      | false => simp
      | true =>
        have hceq : c.Day = d2 := beq_iff_eq.1 hcd
        have hne : (c.Day == d) = false := by
          rw [beq_eq_false_iff_ne, hceq]
          intro h2
          exact hdks (h2 ▸ hd2)
        simp [hne]
    have hcov2 : ∀ c ∈ l.filter (fun c => !(c.Day == d)), c.Day ∈ ks := by
      intro c hc
      rw [List.mem_filter] at hc
      obtain ⟨hcl, hcd⟩ := hc
      rcases List.mem_cons.1 (hcov c hcl) with h2 | h2
      · rw [Bool.not_eq_eq_eq_not, Bool.not_true, beq_eq_false_iff_ne] at hcd
        exact absurd h2 hcd
      · exact h2
    rw [List.flatMap_cons,
      flatMap_congr_mem ks _ _ hbuckets]
    exact (List.Perm.append_left _
        (ih (l.filter (fun c => !(c.Day == d))) hnd2 hcov2)).trans
      (List.filter_append_perm _ l)

theorem objKeys_nodup (l : List ClassSchedule) : (objKeys l).Nodup := by
  induction l with
  | nil => exact List.nodup_nil
  | cons c cs ih =>
    rw [objKeys, List.nodup_cons]
    constructor
    · intro hmem
      rw [List.mem_filter] at hmem
      have h2 : (c.Day != c.Day) = true := hmem.2
      rw [bne_iff_ne] at h2
      exact h2 rfl
    · exact ih.filter _

theorem mem_objKeys_of_mem (l : List ClassSchedule) (c : ClassSchedule)
    (hc : c ∈ l) : c.Day ∈ objKeys l := by
  induction l with
  | nil => exact absurd hc (List.not_mem_nil c)
  | cons x xs ih =>
    rw [objKeys]
    rcases List.mem_cons.1 hc with rfl | hcs
    · exact List.mem_cons_self _ _
    · by_cases hd : c.Day = x.Day
      · rw [hd]
        exact List.mem_cons_self _ _
      · refine List.mem_cons_of_mem _ ?_
        rw [List.mem_filter]
        exact ⟨ih hcs, by rw [bne_iff_ne]; exact hd⟩

/-- C9: the day-grouped render model partitions the filtered schedule — every
session in the bucket for day d has Day = d, and concatenating the buckets
over the dictionary's keys is a permutation of the filtered schedule (nothing
dropped, duplicated or fabricated). -/
theorem groupedByDay_partition (data : List ClassSchedule)
    (selectedGroup : Option String) (selectedDay : String) :
    (∀ d : String, ∀ c ∈ groupedByDay data selectedGroup selectedDay d, c.Day = d)
    ∧ ((objKeys (filteredSchedule data selectedGroup selectedDay)).flatMap
          (groupedByDay data selectedGroup selectedDay)).Perm
        (filteredSchedule data selectedGroup selectedDay) := by
  constructor
  · intro d c hc
    have h2 : c ∈ (filteredSchedule data selectedGroup selectedDay).filter
        (fun c => c.Day == d) := ((sortByStart_perm _).mem_iff).1 hc
    rw [List.mem_filter] at h2
    exact beq_iff_eq.1 h2.2
  · refine (flatMap_perm_congr _ (groupedByDay data selectedGroup selectedDay)
      (fun d => (filteredSchedule data selectedGroup selectedDay).filter
        (fun c => c.Day == d)) (fun d _ => sortByStart_perm _)).trans ?_
    exact filter_day_flatMap_perm _ _ (objKeys_nodup _)
      (fun c hc => mem_objKeys_of_mem _ c hc)

theorem contains_eq_true_iff (l : List String) (a : String) :
    l.contains a = true ↔ a ∈ l :=
  List.elem_iff

/-- The startup load on a successful read, as one state equation: the stored
group survives its validity check or is dropped, dark mode mirrors the literal
dark comparison, and loading is cleared. -/
theorem loadSavedData_true_fields (st : Store) :
    loadSavedData true st initialState
      = { selectedGroup :=
            (match st.selected_group with
             | some g => if !g.toList.isEmpty && GROUPS.contains g then some g else none
             | none => none),
          isDarkMode := st.app_theme == some "dark",
          isLoading := false } := by
  obtain ⟨sg, th⟩ := st
  cases sg with
  | none =>
    cases hth : (th == some "dark") <;>
      (simp only [loadSavedData, hth]; rfl)
  | some g2 =>
    cases hth : (th == some "dark") <;>
      cases hv : (!g2.toList.isEmpty && GROUPS.contains g2) <;>
        (simp only [loadSavedData, hth, hv]; rfl)

/-- C4: saving a valid group with a successful write and then re-running the
startup load from the same store (an app restart) restores the in-memory
selectedGroup to that group. -/
theorem selectGroup_initialize_roundTrip (g : String) (hg : g ∈ GROUPS)
    (st : Store) (s : AppState) :
    (loadSavedData true (saveGroup true g st s).1 initialState).selectedGroup
      = some g := by
  obtain ⟨hne, hcont⟩ := mem_GROUPS_props g hg
  rw [show (saveGroup true g st s).1 = { st with selected_group := some g } from rfl,
    loadSavedData_true_fields]
  show (if !g.toList.isEmpty && GROUPS.contains g then some g else none) = some g
  rw [hne, hcont]
  rfl

/-- Witness for C4 at group L4CG2 and an empty store. -/
theorem selectGroup_initialize_roundTrip_witness :
    (loadSavedData true
        (saveGroup true "L4CG2" { selected_group := none, app_theme := none }
          initialState).1 initialState).selectedGroup = some "L4CG2" :=
  selectGroup_initialize_roundTrip "L4CG2" (by decide) _ _

/-- C7: after the startup load from any store contents, in both the success
and the read-failure outcome — loading is cleared, dark mode holds exactly
when the read succeeded and the stored theme is literally dark, and the
stored group is adopted exactly when the read succeeded and the value is a
member of GROUPS (otherwise the group stays None). -/
theorem initialize_characterization (st : Store) (readOk : Bool) :
    (loadSavedData readOk st initialState).isLoading = false
    ∧ ((loadSavedData readOk st initialState).isDarkMode = true
        ↔ (readOk = true ∧ st.app_theme = some "dark"))
    ∧ (∀ g : String, (loadSavedData readOk st initialState).selectedGroup = some g
        ↔ (readOk = true ∧ st.selected_group = some g ∧ g ∈ GROUPS)) := by
  cases readOk with
  | false =>
    refine ⟨rfl, by simp [loadSavedData, initialState], ?_⟩
    intro g
    simp [loadSavedData, initialState]
  | true =>
    rw [loadSavedData_true_fields]
    refine ⟨rfl, by simp [beq_iff_eq], ?_⟩
    intro g
    cases hsg : st.selected_group with
    | none => simp
    | some g2 =>
      by_cases hg2 : g2 ∈ GROUPS
      · obtain ⟨hne, hcont⟩ := mem_GROUPS_props g2 hg2
        show (if !g2.toList.isEmpty && GROUPS.contains g2 then some g2 else none) = some g
          ↔ (true = true ∧ some g2 = some g ∧ g ∈ GROUPS)
        rw [hne, hcont]
        show some g2 = some g ↔ (true = true ∧ some g2 = some g ∧ g ∈ GROUPS)
        constructor
        · intro h2
          exact ⟨rfl, h2, (Option.some.injEq g2 g ▸ h2 : g2 = g) ▸ hg2⟩
        · exact fun h2 => h2.2.1
      · have hcont : GROUPS.contains g2 = false := by
          cases hb : GROUPS.contains g2 with
          | false => rfl
          | true => exact absurd ((contains_eq_true_iff _ _).1 hb) hg2
        show (if !g2.toList.isEmpty && GROUPS.contains g2 then some g2 else none) = some g
          ↔ (true = true ∧ some g2 = some g ∧ g ∈ GROUPS)
        rw [hcont, Bool.and_false]
        show none = some g ↔ (true = true ∧ some g2 = some g ∧ g ∈ GROUPS)
        constructor
        · intro h2
          exact absurd h2 (by simp)
        · rintro ⟨-, h2, hgg⟩
          exact absurd ((Option.some.injEq g2 g ▸ h2 : g2 = g) ▸ hgg) hg2

/-- SAT is not among the day-picker choices. -/
theorem sat_not_in_dayPickerOptions : "SAT" ∉ dayPickerOptions := by decide

/-- C10: every reachable value of selectedDay lies in the picker's option set
(ALL plus SUN..FRI) and in particular is never SAT: the initializer falls
back to ALL when today's abbreviation is SAT, and every picker transition
targets an offered option. -/
theorem selectedDay_never_SAT (d : String) (h : DayReachable d) :
    d ∈ dayPickerOptions ∧ d ≠ "SAT" := by
  induction h with
  | init i =>
    have hmem : initSelectedDay i ∈ dayPickerOptions :=
      (by decide : ∀ j : Fin 7, initSelectedDay j ∈ dayPickerOptions) i
    exact ⟨hmem, fun heq => sat_not_in_dayPickerOptions (heq ▸ hmem)⟩
  | step prev d2 hprev hd2 ih =>
    exact ⟨hd2, fun heq => sat_not_in_dayPickerOptions (heq ▸ hd2)⟩

/-- Witness for C10: ALL is reachable (it is the initializer's value on a
Saturday) and satisfies the invariant. -/
theorem selectedDay_never_SAT_witness :
    "ALL" ∈ dayPickerOptions ∧ "ALL" ≠ "SAT" :=
  selectedDay_never_SAT "ALL"
    ((by decide : initSelectedDay (6 : Fin 7) = "ALL") ▸
      DayReachable.init (6 : Fin 7))

end StudentRoutine
